import Mathlib

/-
Verification of the tonic2axum message-partitioning and route-synthesis engine.

The definitions below are a shallow embedding of the Rust sources:
  * `MsgField`, `Message`, `ExistingMessages`, `NewMessages` from src/message.rs
    (the tonic2axum-build revision in tonic2axum-build/src/message.rs has the
    same field-tracking logic, plus doc comments and a two-bucket registry,
    embedded in the `Build` namespace);
  * `HttpOption.parse_pattern` / `parse_body` / `parse_query_str` / `parse`
    and `HttpOptions.calculate_messages` from src/http.rs;
  * `Build.FunctionParts.new`, `Build.ServiceType.new` from
    tonic2axum-build/src/codegen/helpers.rs;
  * `Generator.finalize` / `finalize_package` / `write_code_to_buffer` from
    tonic2axum-build/src/codegen/generator.rs.

Modelling conventions: `syn::Ident` and `LocalStr` are `String`; `syn::Type`
is modelled by its printed token stream (a `String`), which in the source also
is exactly `MsgField.type_name`, so a single `ty` field serves as both `type_` and
`type_name`.  `Message.ident` and `Message.name` always hold the same text in
the source (`Message::new` derives `name` from `ident`, and synthesized names
are built with `format_ident!` from the same string), so a single `name` field
serves as both.  `TokenStream` values are rendered as plain strings; derive
attributes and doc-comment tokens of emitted structs are elided as formatting
detail.  `HashMap` is modelled as an association list with first-match lookup
and replace-or-append insertion.
-/

/-- Decidable equality for `Except`, so witness goals over fallible results
can be settled by evaluation. -/
instance exceptDecidableEq {ε α : Type} [DecidableEq ε] [DecidableEq α] :
    DecidableEq (Except ε α) := fun x y =>
  match x, y with
  | .ok a, .ok b =>
    if h : a = b then .isTrue (by rw [h])
    else .isFalse (by intro hc; injection hc; contradiction)
  | .error e, .error f =>
    if h : e = f then .isTrue (by rw [h])
    else .isFalse (by intro hc; injection hc; contradiction)
  | .ok _, .error _ => .isFalse (fun hc => Except.noConfusion hc)
  | .error _, .ok _ => .isFalse (fun hc => Except.noConfusion hc)

/-- A message member (src/message.rs `MsgField`): name, declared type, and
doc comments (present in the tonic2axum-build revision; not part of equality). -/
structure MsgField where
  name : String
  ty : String
  doc : String
  deriving Repr, DecidableEq

/-- MsgField equality per `impl PartialEq for MsgField`: (name, declared type) only;
documentation is ignored. -/
def fieldEq (f g : MsgField) : Bool :=
  f.name == g.name && f.ty == g.ty

/-- The dedup key of a field: exactly the data `fieldEq` compares. -/
def fieldKey (f : MsgField) : String × String :=
  (f.name, f.ty)

/-- src/message.rs `Message`: a named, ordered field list plus the original
field count (`field_count`), which only ever grows with additions. -/
structure Message where
  name : String
  doc : String
  fields : List MsgField
  field_count : Nat
  deriving Repr, DecidableEq

/-- `Message::new`: empty field list, zero original count. -/
def Message.new (name : String) (doc : String) : Message :=
  { name := name, doc := doc, fields := [], field_count := 0 }

/-- `Message::add_fields`: extend the list and bump the count by the batch size. -/
def Message.add_fields (m : Message) (fs : List MsgField) : Message :=
  { m with fields := m.fields ++ fs, field_count := m.field_count + fs.length }

/-- `Message::add_field`: push one field and bump the count. -/
def Message.add_field (m : Message) (f : MsgField) : Message :=
  { m with fields := m.fields ++ [f], field_count := m.field_count + 1 }

/-- Remove the first list element with the given field name, returning it and
the remainder (the `position` + `remove(index)` idiom of `Message::remove_field`). -/
def removeFirst (name : String) : List MsgField → Option (MsgField × List MsgField)
  | [] => none
  | f :: rest =>
    if f.name == name then some (f, rest)
    else
      match removeFirst name rest with
      | none => none
      | some (g, l) => some (g, f :: l)

/-- `Message::remove_field`: remove-by-name; `field_count` is untouched. -/
def Message.remove_field (m : Message) (name : String) : Option (MsgField × Message) :=
  (removeFirst name m.fields).map fun p => (p.1, { m with fields := p.2 })

/-- `Message::remove_all_fields`: take the whole field list (`mem::take`). -/
def Message.remove_all_fields (m : Message) : List MsgField × Message :=
  (m.fields, { m with fields := [] })

/-- `Message::is_empty`. -/
def Message.is_empty (m : Message) : Bool :=
  m.fields.isEmpty

/-- `Message::is_intact`: current length still equals the original count. -/
def Message.is_intact (m : Message) : Bool :=
  m.field_count == m.fields.length

/-- `Message::intact_single_field`. -/
def Message.intact_single_field (m : Message) : Bool :=
  m.is_intact && m.field_count == 1

/-- `Message::same_fields`: equal length and every stored field occurs
(under `fieldEq`) in the supplied list. -/
def Message.same_fields (m : Message) (fs : List MsgField) : Bool :=
  m.fields.length == fs.length && m.fields.all fun f => fs.any (fieldEq f)

/-- src/message.rs `ExistingMessages`: name-indexed map of parsed messages. -/
def ExistingMessages := List (String × Message)

/-- `ExistingMessages::get_message`. -/
def ExistingMessages.get_message (em : ExistingMessages) (name : String) : Option Message :=
  (em.find? fun p => p.1 == name).map Prod.snd

/-- src/message.rs `NewMessages`: input-message-name -> synthesized messages. -/
def NewMessages := List (String × List Message)
  deriving DecidableEq

/-- Bucket lookup (`HashMap::entry(..).or_insert(Vec::new())` read side). -/
def NewMessages.bucket (nm : NewMessages) (name : String) : List Message :=
  ((nm.find? fun p => p.1 == name).map Prod.snd).getD []

/-- Bucket write-back: replace the first entry for the key, or append it. -/
def NewMessages.setBucket : NewMessages → String → List Message → NewMessages
  | [], n, msgs => [(n, msgs)]
  | p :: rest, n, msgs =>
    if p.1 == n then (n, msgs) :: rest else p :: NewMessages.setBucket rest n msgs

/-- The linear scan for a structurally equal synthesized message. -/
def findSame (msgs : List Message) (fields : List MsgField) : Option Message :=
  msgs.find? fun m => m.same_fields fields

/-- src/message.rs `NewMessages::get_or_create_message`: reuse the first
structural match, else allocate `{name}{len + 2}` and push it. -/
def NewMessages.get_or_create_message (nm : NewMessages) (input_message_name : String)
    (fields : List MsgField) : String × NewMessages :=
  let msgs := nm.bucket input_message_name
  match findSame msgs fields with
  | some m => (m.name, nm)
  | none =>
    let suffix_num := msgs.length + 2
    let m := (Message.new (input_message_name ++ toString suffix_num) "").add_fields fields
    (m.name, nm.setBucket input_message_name (msgs ++ [m]))

/-- src/http.rs `MessageHandling`. -/
inductive MessageHandling where
  | VerbatimRequest
  | VerbatimBinding (ident : String)
  | ExtractFields
  deriving Repr, DecidableEq

/-- src/http.rs `MessageDetails`. -/
structure MessageDetails where
  ident : String
  handling : MessageHandling
  deriving Repr, DecidableEq

/-- src/http.rs `MethodDetails`. -/
structure MethodDetails where
  method : String
  path : String
  path_fields : List MsgField
  query_str : Option MessageDetails
  body : Option MessageDetails
  deriving Repr, DecidableEq

/-- src/http.rs `HttpOption`: verb, path template, optional body spec. -/
structure HttpOption where
  method : String
  pattern : String
  body : Option String
  deriving Repr, DecidableEq

/-- `HttpOption::build_path`: the pattern is returned as-is. -/
def HttpOption.build_path (o : HttpOption) : String :=
  o.pattern

/-- Split a character list at every occurrence of `c` (the semantics of
Rust's `str::split(char)`): empty segments are kept on both ends. -/
def splitCharGo (c : Char) : List Char → List Char → List String
  | [], acc => [String.mk acc.reverse]
  | ch :: rest, acc =>
    if ch = c then String.mk acc.reverse :: splitCharGo c rest []
    else splitCharGo c rest (ch :: acc)

/-- `pattern.split('/')` over a string's characters. -/
def splitChar (c : Char) (s : String) : List String :=
  splitCharGo c s.data []

/-- A path segment of the form `\x7bfield_name\x7d`
(`part.starts_with('\x7b') && part.ends_with('\x7d')`). -/
def isPlaceholder (part : String) : Bool :=
  part.data.head? == some '\x7b' && part.data.getLast? == some '\x7d'

/-- The field name inside a placeholder segment (`part[1..len-1]`; the
stripped braces are one byte each, so character slicing coincides). -/
def placeholderName (part : String) : String :=
  String.mk ((part.data.drop 1).dropLast)

/-- The placeholder field names of a pattern, in declaration order. -/
def placeholders (pattern : String) : List String :=
  (splitChar '/' pattern).filterMap fun p =>
    if isPlaceholder p then some (placeholderName p) else none

/-- The loop of `HttpOption::parse_pattern` over the split path segments. -/
def parsePatternGo : List String → Message → Except String (List MsgField × Message)
  | [], m => .ok ([], m)
  | part :: rest, m =>
    if isPlaceholder part then
      match m.remove_field (placeholderName part) with
      | none => .error ("Path field not found: " ++ placeholderName part)
      | some (f, m') =>
        match parsePatternGo rest m' with
        | .error e => .error e
        | .ok (pf, m2) => .ok (f :: pf, m2)
    else parsePatternGo rest m

/-- `HttpOption::parse_pattern`: split on '/' and consume each placeholder
field from the working message, in order. -/
def HttpOption.parse_pattern (o : HttpOption) (m : Message) :
    Except String (List MsgField × Message) :=
  parsePatternGo (splitChar '/' o.pattern) m

/-- `HttpOption::parse_body`: wildcard / single-field / no body resolution,
threading the working message and the synthesized-message registry. -/
def HttpOption.parse_body (o : HttpOption) (m : Message) (em : ExistingMessages)
    (nm : NewMessages) :
    Except String (Option MessageDetails × Message × NewMessages) :=
  match o.body with
  | some b =>
    if b == "*" then
      -- Save this _before_ we remove the fields
      let intact := m.is_intact
      let r := m.remove_all_fields
      if intact then
        .ok (some ⟨r.2.name, .VerbatimRequest⟩, r.2, nm)
      else
        let c := nm.get_or_create_message r.2.name r.1
        .ok (some ⟨c.1, .ExtractFields⟩, r.2, c.2)
    else
      -- Save this _before_ we remove the field
      let intact_single_field := m.intact_single_field
      match m.remove_field b with
      | none => .error ("Field not found: " ++ b)
      | some (f, m') =>
        match em.get_message f.ty with
        | some nested => .ok (some ⟨nested.name, .VerbatimBinding f.name⟩, m', nm)
        | none =>
          if intact_single_field then
            .ok (some ⟨m'.name, .VerbatimRequest⟩, m', nm)
          else
            let c := nm.get_or_create_message m'.name [f]
            .ok (some ⟨c.1, .ExtractFields⟩, m', c.2)
  | none => .ok (none, m, nm)

/-- `HttpOption::parse_query_str`: empty / intact / extract over the fields
remaining after path and body extraction. -/
def HttpOption.parse_query_str (_o : HttpOption) (m : Message) (nm : NewMessages) :
    Option MessageDetails × Message × NewMessages :=
  if m.is_empty then (none, m, nm)
  else if m.is_intact then (some ⟨m.name, .VerbatimRequest⟩, m, nm)
  else
    let r := m.remove_all_fields
    let c := nm.get_or_create_message r.2.name r.1
    (some ⟨c.1, .ExtractFields⟩, r.2, c.2)

/-- `HttpOption::parse`: clone the input message and run the three phases. -/
def HttpOption.parse (o : HttpOption) (message : Message) (message_fields : ExistingMessages)
    (nm : NewMessages) : Except String (MethodDetails × NewMessages) :=
  match o.parse_pattern message with
  | .error e => .error e
  | .ok (path_fields, m1) =>
    match o.parse_body m1 message_fields nm with
    | .error e => .error e
    | .ok (body, m2, nm1) =>
      let q := o.parse_query_str m2 nm1
      .ok ({ method := o.method, path := o.build_path, path_fields := path_fields,
             query_str := q.1, body := body }, q.2.2)

/-- src/http.rs `HttpOptions`: service name -> method name -> `HttpOption`. -/
def HttpOptions := List (String × List (String × HttpOption))

/-- `HttpOptions::get_http_options`. -/
def HttpOptions.get_http_options (opts : HttpOptions) (service_name method_name : String) :
    Option HttpOption :=
  match (opts.find? fun p => p.1 == service_name).map Prod.snd with
  | none => none
  | some ms => (ms.find? fun p => p.1 == method_name).map Prod.snd

/-- `HttpOptions::calculate_messages`: `Ok(None)` exactly when no binding was
recorded; otherwise delegate to `HttpOption::parse`. -/
def HttpOptions.calculate_messages (opts : HttpOptions) (service_name method_name : String)
    (message : Message) (em : ExistingMessages) (nm : NewMessages) :
    Except String (Option MethodDetails × NewMessages) :=
  match opts.get_http_options service_name method_name with
  | some option =>
    match option.parse message em nm with
    | .error e => .error e
    | .ok (d, nm') => .ok (some d, nm')
  | none => .ok (none, nm)

namespace Build

/-- tonic2axum-build/src/message.rs `NewMessages::get_or_create_message`
(the static helper): reuse the first structural match in the origin's bucket,
else allocate a fresh message named `origin ++ suffix ++ type_suffix` for the
first variant, or `origin ++ suffix ++ (len + 1) ++ type_suffix` afterwards. -/
def get_or_create_message (messages : List (String × List Message))
    (input_message_name : String) (msg_doc_comments : String) (fields : List MsgField)
    (suffix type_suffix : String) : String × List (String × List Message) :=
  let msgs := NewMessages.bucket messages input_message_name
  match findSame msgs fields with
  | some m => (m.name, messages)
  | none =>
    let name :=
      if msgs.isEmpty then input_message_name ++ suffix ++ type_suffix
      else
        let suffix_num := msgs.length + 1
        input_message_name ++ suffix ++ toString suffix_num ++ type_suffix
    let m := (Message.new name msg_doc_comments).add_fields fields
    (m.name, NewMessages.setBucket messages input_message_name (msgs ++ [m]))

/-- tonic2axum-build `NewMessages`: independent body and query buckets. -/
structure NewMessages where
  body_messages : List (String × List Message)
  query_messages : List (String × List Message)
  deriving Repr, DecidableEq

/-- tonic2axum-build/src/builder.rs `StateType`. -/
inductive StateType where
  | Custom (ty : String)
  | Generic
  deriving Repr, DecidableEq

/-- tonic2axum-build/src/builder.rs `GeneratorConfig` (the fields the claims
touch; emission-naming knobs are carried as plain strings). -/
structure GeneratorConfig where
  state_types : List (String × StateType)
  generate_openapi : Bool
  generate_web_sockets : Bool
  body_message_suffix : String
  query_message_suffix : String
  type_suffix : String
  deriving Repr, DecidableEq

/-- `NewMessages::get_or_create_body_message`: the body bucket with the
configured body suffix. -/
def NewMessages.get_or_create_body_message (nm : NewMessages) (input_message_name : String)
    (msg_doc_comments : String) (fields : List MsgField) (config : GeneratorConfig) :
    String × NewMessages :=
  let r := get_or_create_message nm.body_messages input_message_name msg_doc_comments fields
    config.body_message_suffix config.type_suffix
  (r.1, { nm with body_messages := r.2 })

/-- `NewMessages::get_or_create_query_message`: the query bucket with the
configured query suffix. -/
def NewMessages.get_or_create_query_message (nm : NewMessages) (input_message_name : String)
    (msg_doc_comments : String) (fields : List MsgField) (config : GeneratorConfig) :
    String × NewMessages :=
  let r := get_or_create_message nm.query_messages input_message_name msg_doc_comments fields
    config.query_message_suffix config.type_suffix
  (r.1, { nm with query_messages := r.2 })

/-- tonic2axum-build `MessageHandling` (shape as consumed by
codegen/helpers.rs: extract modes carry the bound field identifiers). -/
inductive MessageHandling where
  | VerbatimRequest
  | ExtractSingleField (field : String)
  | ExtractFields (fields : List String)
  deriving Repr, DecidableEq

/-- tonic2axum-build `MessageDetails` as consumed by codegen/helpers.rs. -/
structure MessageDetails where
  type_name : String
  handling : MessageHandling
  deriving Repr, DecidableEq

/-- tonic2axum-build `MethodDetails` as consumed by codegen/helpers.rs. -/
structure MethodDetails where
  method : String
  path : String
  path_fields : List MsgField
  query_str : Option MessageDetails
  body : Option MessageDetails
  deriving Repr, DecidableEq

/-- `FunctionParts::make_path_extractor`: one `Path(name): Path<type>`
parameter per path-bound field; pushes every path field name into
`extracted_fields` (returned as the second component). -/
def make_path_extractor (fields : List MsgField) : Option String × List String :=
  if fields.isEmpty then (none, [])
  else
    (some (String.join (fields.map fun f =>
      "Path(" ++ f.name ++ "): Path<" ++ f.ty ++ ">, ")),
     fields.map MsgField.name)

/-- `FunctionParts::make_query_extractor`: an `ExtractFields` query pushes its
field names; a `VerbatimRequest` query binds the whole `Query<T>` extractor and
pushes nothing.  The `ExtractSingleField` arm is `unreachable!()` in the
source (queries are never resolved to that mode); it is mapped to no extractor. -/
def make_query_extractor (query_str : Option MessageDetails) (req_name : String) :
    Option String × List String :=
  match query_str with
  | some ⟨type_name, .ExtractFields fields⟩ =>
    (some ("Query(super::" ++ type_name ++ " \x7b " ++ String.intercalate ", " fields ++
      " \x7d): Query<super::" ++ type_name ++ ">, "), fields)
  | some ⟨_, .ExtractSingleField _⟩ => (none, [])
  | some ⟨type_name, .VerbatimRequest⟩ =>
    (some (req_name ++ ": Query<super::" ++ type_name ++ ">, "), [])
  | none => (none, [])

/-- `FunctionParts::make_body_extractor`: extract modes push their field
names and destructure a `Json<T>`; a verbatim body binds `JsonLines<T>` when
client-streaming, else `Json<T>`, pushing nothing. -/
def make_body_extractor (body : Option MessageDetails) (client_streaming : Bool)
    (req_name : String) : Option String × List String :=
  match body with
  | some ⟨type_name, .ExtractFields fields⟩ =>
    (some ("Json(super::" ++ type_name ++ " \x7b " ++ String.intercalate ", " fields ++
      " \x7d): Json<super::" ++ type_name ++ ">, "), fields)
  | some ⟨type_name, .ExtractSingleField field⟩ =>
    (some ("Json(super::" ++ type_name ++ " \x7b " ++ field ++
      " \x7d): Json<super::" ++ type_name ++ ">, "), [field])
  | some ⟨type_name, .VerbatimRequest⟩ =>
    if client_streaming then
      (some (req_name ++ ": JsonLines<super::" ++ type_name ++ ">, "), [])
    else
      (some (req_name ++ ": Json<super::" ++ type_name ++ ">, "), [])
  | none => (none, [])

/-- `FunctionParts::make_request_builder`: reconstruct the input type from the
piecemeal-extracted identifiers, when any exist. -/
def make_request_builder (extracted_fields : List String) (input_type req_name : String) :
    Option String :=
  if extracted_fields.isEmpty then none
  else
    some ("let " ++ req_name ++ " = super::" ++ input_type ++ " \x7b " ++
      String.intercalate ", " extracted_fields ++ " \x7d;")

/-- tonic2axum-build/src/codegen/helpers.rs `FunctionParts`. -/
structure FunctionParts where
  path_extractor : Option String
  query_extractor : Option String
  body_extractor : Option String
  request_builder : Option String
  deriving Repr, DecidableEq

/-- `FunctionParts::new`: build path and query extractors first; reject a
client-streaming method as soon as those two phases extracted any field; then
build the body extractor and the request builder. -/
def FunctionParts.new (method_name : String) (method_details : MethodDetails)
    (input_type : String) (client_streaming : Bool) (req_name : String) :
    Except String FunctionParts :=
  let p := make_path_extractor method_details.path_fields
  let q := make_query_extractor method_details.query_str req_name
  if client_streaming && !(p.2 ++ q.2).isEmpty then
    .error ("Client streaming methods are not supported with query or path parameters: (Method: "
      ++ method_name ++ ")")
  else
    let b := make_body_extractor method_details.body client_streaming req_name
    let request_builder := make_request_builder (p.2 ++ q.2 ++ b.2) input_type req_name
    .ok ⟨p.1, q.1, b.1, request_builder⟩

/-- codegen/helpers.rs `ServiceType::new`, reduced to the observation the
generator's checks consult: `generics` is present exactly for the `Generic`
state type.  The token-stream fields (state type name, turbofish, bounds) are
elided as formatting detail. -/
structure ServiceType where
  generics : Option Unit
  deriving Repr, DecidableEq

/-- `ServiceType::new`: only the `Generic` arm produces generics. -/
def ServiceType.new (_service_name : String) (state_type : Option StateType) : ServiceType :=
  match state_type with
  | some (.Custom _) => ⟨none⟩
  | some .Generic => ⟨some ()⟩
  | none => ⟨none⟩

/-- A `prost_build::Method` (the fields the generator consults). -/
structure Method where
  name : String
  proto_name : String
  input_type : String
  client_streaming : Bool
  server_streaming : Bool
  deriving Repr, DecidableEq

/-- A `prost_build::Service` (the fields the generator consults). -/
structure Service where
  name : String
  methods : List Method
  deriving Repr, DecidableEq

/-- The method loop of `Generator::generate_service`: run the per-method
generator in order, propagating its first error; `has_client_streaming` is set
when a client-streaming method actually produced a handler (`Some`). -/
def generateLoop (gf : Method → Except String (Option Unit)) :
    List Method → Bool → Except String Bool
  | [], acc => .ok acc
  | m :: rest, acc =>
    match gf m with
    | .error e => .error e
    | .ok none => generateLoop gf rest acc
    | .ok (some _) => generateLoop gf rest (acc || m.client_streaming)

/-- `Generator::generate_service`, control-flow skeleton.  The per-method
generation step (`Generator::generate_func`) is taken as the parameter `gf`:
its REST-emission core depends on the build crate's http module, and only
whether it errors, skips (`None`), or emits a handler (`Some`) feeds the
service-level checks modelled here.  The two configuration checks and their
error messages follow tonic2axum-build/src/codegen/generator.rs: the
generic-state/OpenAPI conflict is rejected before any method is processed, and
the client-streaming/trait-object conflict after the loop, only when some
client-streaming method produced a handler. -/
def generate_service (gf : Method → Except String (Option Unit))
    (config : GeneratorConfig) (service : Service) : Except String Unit :=
  let state_type := (config.state_types.find? fun p => p.1 == service.name).map Prod.snd
  let has_trait_object_state_type := state_type.isNone
  let service_type := ServiceType.new service.name state_type
  if service_type.generics.isSome && config.generate_openapi then
    .error ("A generic service state type is not supported when generating OpenAPI documentation: (Service: "
      ++ service.name ++ ")")
  else
    match generateLoop gf service.methods false with
    | .error e => .error e
    | .ok has_client_streaming =>
      if has_client_streaming && has_trait_object_state_type then
        .error ("Client streaming methods are not supported when the state type is a trait object: (Service: "
          ++ service.name ++ ")")
      else .ok ()

end Build

/-- All messages stored in a registry bucket map (`HashMap::values().flatten()`). -/
def allValues (m : List (String × List Message)) : List Message :=
  (m.map Prod.snd).flatten

/-- `Generator::generate_struct`, rendered as a plain struct declaration
(derive attributes, doc comments and OpenAPI annotations elided as
formatting detail). -/
def generate_struct (m : Message) : String :=
  "pub struct " ++ m.name ++ " \x7b " ++
    String.intercalate ", " (m.fields.map fun f => "pub " ++ f.name ++ ": " ++ f.ty) ++
    " \x7d "

/-- tonic2axum-build/src/codegen/generator.rs `Generator` (the state the
finalization callbacks read: the accumulated registry and service modules;
the wrapped inner generator is passed to each callback as a function on the
buffer). -/
structure Generator where
  new_messages : Build.NewMessages
  modules : List String
  deriving Repr, DecidableEq

/-- `Generator::write_code_to_buffer`: append every synthesized body struct,
then every synthesized query struct, then the service modules. -/
def Generator.write_code_to_buffer (g : Generator) (buf : String) : String :=
  let body_structs := (allValues g.new_messages.body_messages).map generate_struct
  let query_structs := (allValues g.new_messages.query_messages).map generate_struct
  buf ++ String.join body_structs ++ String.join query_structs ++ String.join g.modules

/-- `ServiceGenerator::finalize` for `Generator`: delegate to the wrapped
inner generator only. -/
def Generator.finalize (inner_finalize : String → String) (_g : Generator)
    (buf : String) : String :=
  inner_finalize buf

/-- `ServiceGenerator::finalize_package` for `Generator`: delegate to the
wrapped inner generator, then flush the synthesized declarations. -/
def Generator.finalize_package (inner_finalize_package : String → String) (g : Generator)
    (buf : String) : String :=
  g.write_code_to_buffer (inner_finalize_package buf)

/-- An operation on a `Message` (the four field-list mutators of
src/message.rs). -/
inductive Op where
  | add (f : MsgField)
  | adds (fs : List MsgField)
  | rem (name : String)
  | remAll
  deriving Repr, DecidableEq

/-- Run a sequence of `Message` operations, counting every field actually
removed (`remove_field` that found its target counts one; `remove_all_fields`
counts the length of the list it cleared). -/
def applyCount : Message → Nat → List Op → Message × Nat
  | m, r, [] => (m, r)
  | m, r, op :: rest =>
    match op with
    | .add f => applyCount (m.add_field f) r rest
    | .adds fs => applyCount (m.add_fields fs) r rest
    | .rem n =>
      match m.remove_field n with
      | none => applyCount m r rest
      | some (_, m') => applyCount m' (r + 1) rest
    | .remAll =>
      let t := m.remove_all_fields
      applyCount t.2 (r + t.1.length) rest

/- Concrete fixtures used by witnesses and counterexamples. -/

/-- Fixture field `id: u32`. -/
def wId : MsgField := ⟨"id", "u32", ""⟩

/-- Fixture field `name: String`. -/
def wName : MsgField := ⟨"name", "String", ""⟩

/-- Fixture input message with two fields, fully intact. -/
def wMsg : Message := ⟨"GetItemRequest", "", [wId, wName], 2⟩

/-- Fixture working message after one removal: one field left of two. -/
def wMsgPart : Message := ⟨"GetItemRequest", "", [wName], 2⟩

/-- Fixture single-field intact message. -/
def wMsgOne : Message := ⟨"CreateItemRequest", "", [wName], 1⟩

/-- Fixture field whose type names another message. -/
def wFilter : MsgField := ⟨"filter", "FilterMsg", ""⟩

/-- Fixture message holding only `wFilter`. -/
def wMsgFilter : Message := ⟨"SearchRequest", "", [wFilter], 1⟩

/-- Fixture nested message for `wFilter`. -/
def wFilterMsg : Message := ⟨"FilterMsg", "", [⟨"q", "String", ""⟩], 1⟩

/-- Fixture binding: path parameter only. -/
def wOptA : HttpOption := ⟨"GET", "/items/{id}", none⟩

/-- Fixture binding: wildcard body. -/
def wOptStar : HttpOption := ⟨"POST", "/items", some "*"⟩

/-- Fixture binding: single-field body. -/
def wOptName : HttpOption := ⟨"POST", "/items", some "name"⟩

/-- Fixture binding: body names a path-consumed field. -/
def wOptId : HttpOption := ⟨"GET", "/items/{id}", some "id"⟩

/-- Fixture binding: repeated placeholder. -/
def wOptDup : HttpOption := ⟨"GET", "/x/{id}/{id}", none⟩

/-- Fixture options table with a single recorded binding. -/
def wOpts : HttpOptions := [("Svc", [("GetItem", wOptA)])]

/-- Fixture method details with a verbatim-mode query and nothing else. -/
def wQueryVerbatimDetails : Build.MethodDetails :=
  ⟨"GET", "/x", [], some ⟨"T", .VerbatimRequest⟩, none⟩

/-- Fixture generator holding one synthesized body struct. -/
def wGen : Generator := ⟨⟨[("In", [⟨"InBody__", "", [⟨"id", "u32", ""⟩], 1⟩])], []⟩, []⟩

/- Helper lemmas. -/

/-- `removeFirst` found a field: it has the searched name, the input list is a
permutation of the field consed on the remainder, and the length drops by one. -/
theorem removeFirst_eq_some (n : String) :
    ∀ (l : List MsgField) (f : MsgField) (l' : List MsgField),
      removeFirst n l = some (f, l') →
      f.name = n ∧ l.Perm (f :: l') ∧ l.length = l'.length + 1 := by
  intro l
  induction l with
  | nil => intro f l' h; simp [removeFirst] at h
  | cons a t ih =>
    intro f l' h
    rw [removeFirst] at h
    by_cases ha : a.name = n
    · rw [if_pos (by simp [ha])] at h
      simp only [Option.some.injEq, Prod.mk.injEq] at h
      obtain ⟨h1, h2⟩ := h
      subst h1; subst h2
      exact ⟨ha, List.Perm.refl _, rfl⟩
    · rw [if_neg (by simp [ha])] at h
      cases hr : removeFirst n t with
      | none => rw [hr] at h; simp at h
      | some p =>
        obtain ⟨g, l0⟩ := p
        rw [hr] at h
        simp only [Option.some.injEq, Prod.mk.injEq] at h
        obtain ⟨h1, h2⟩ := h
        subst h1; subst h2
        obtain ⟨h1, h2, h3⟩ := ih g l0 hr
        refine ⟨h1, ?_, by simp [h3]⟩
        exact (h2.cons a).trans (List.Perm.swap g a l0)

/-- `removeFirst` fails exactly when no field has the searched name. -/
theorem removeFirst_eq_none (n : String) :
    ∀ l : List MsgField, removeFirst n l = none ↔ ∀ f ∈ l, f.name ≠ n := by
  intro l
  induction l with
  | nil => simp [removeFirst]
  | cons a t ih =>
    by_cases ha : a.name = n
    · rw [removeFirst, if_pos (by simp [ha])]
      simp [ha]
    · rw [removeFirst, if_neg (by simp [ha])]
      cases hr : removeFirst n t with
      | none => simpa [hr, ha] using ih.mp hr
      | some p => simp [hr, ha, ← ih, hr]

/-- `Message.remove_field` success: name match, permutation decomposition,
the other components untouched, and the field list shrinks by one. -/
theorem remove_field_spec (m : Message) (n : String) (f : MsgField) (m' : Message)
    (h : m.remove_field n = some (f, m')) :
    f.name = n ∧ m.fields.Perm (f :: m'.fields) ∧ m'.name = m.name ∧ m'.doc = m.doc
    ∧ m'.field_count = m.field_count ∧ m.fields.length = m'.fields.length + 1 := by
  unfold Message.remove_field at h
  cases hr : removeFirst n m.fields with
  | none => rw [hr] at h; simp at h
  | some p =>
    obtain ⟨g, l⟩ := p
    rw [hr] at h
    simp only [Option.map_some', Option.some.injEq, Prod.mk.injEq] at h
    obtain ⟨h1, h2⟩ := h
    subst h1; subst h2
    obtain ⟨h1, h2, h3⟩ := removeFirst_eq_some n m.fields g l hr
    exact ⟨h1, h2, rfl, rfl, rfl, h3⟩

/-- `Message.remove_field` fails exactly when no current field has the name. -/
theorem remove_field_eq_none (m : Message) (n : String) :
    m.remove_field n = none ↔ ∀ f ∈ m.fields, f.name ≠ n := by
  unfold Message.remove_field
  cases hr : removeFirst n m.fields with
  | none => simpa using (removeFirst_eq_none n m.fields).mp hr
  | some p =>
    simp only [Option.map_some', reduceCtorEq, false_iff]
    intro hall
    rw [(removeFirst_eq_none n m.fields).mpr hall] at hr
    exact absurd hr (by simp)

/-- C5: query resolution over the fields remaining after path and body
extraction: no remaining fields yields no query details; a non-empty,
still-intact working message yields VerbatimRequest of the original message
type, touching neither the message nor the registry; otherwise a synthesized
struct is obtained from the registry over exactly the remaining fields, in
extract mode, and the working message is emptied — so a message that lost a
field earlier (e.g. to a path binding) never resolves to a verbatim query. -/
theorem c5_query_resolution (o : HttpOption) (m : Message) (nm : NewMessages) :
    (m.is_empty = true → o.parse_query_str m nm = (none, m, nm))
    ∧ (m.is_empty = false → m.is_intact = true →
        o.parse_query_str m nm = (some ⟨m.name, .VerbatimRequest⟩, m, nm))
    ∧ (m.is_empty = false → m.is_intact = false →
        o.parse_query_str m nm =
          (some ⟨(nm.get_or_create_message m.name m.fields).1, .ExtractFields⟩,
           { m with fields := [] },
           (nm.get_or_create_message m.name m.fields).2)) := by
  refine ⟨fun h => ?_, fun h1 h2 => ?_, fun h1 h2 => ?_⟩
  · simp [HttpOption.parse_query_str, h]
  · simp [HttpOption.parse_query_str, h1, h2]
  · simp [HttpOption.parse_query_str, h1, h2, Message.remove_all_fields]

/-- C5 witness: scenario A's working message (`id` already path-extracted from
a two-field message) resolves to an extract-mode synthesized query struct
holding exactly the remaining field. -/
theorem c5_witness :
    wMsgPart.is_empty = false ∧ wMsgPart.is_intact = false ∧
    HttpOption.parse_query_str wOptA wMsgPart [] =
      (some ⟨(NewMessages.get_or_create_message [] wMsgPart.name wMsgPart.fields).1,
        .ExtractFields⟩,
       { wMsgPart with fields := [] },
       (NewMessages.get_or_create_message [] wMsgPart.name wMsgPart.fields).2) :=
  ⟨by decide, by decide,
    (c5_query_resolution wOptA wMsgPart []).2.2 (by decide) (by decide)⟩

/-- C3: wildcard body: intactness is read before fields are removed; a
still-intact working message yields VerbatimRequest of the original message
type with the registry untouched; otherwise the registry allocates (or
reuses) a synthesized type over exactly the remaining fields; in both cases
the working message ends empty, so the query phase produces no details. -/
theorem c3_wildcard_body (o : HttpOption) (m : Message) (em : ExistingMessages)
    (nm : NewMessages) (h : o.body = some "*") :
    (m.is_intact = true →
      o.parse_body m em nm =
        .ok (some ⟨m.name, .VerbatimRequest⟩, { m with fields := [] }, nm))
    ∧ (m.is_intact = false →
      o.parse_body m em nm =
        .ok (some ⟨(nm.get_or_create_message m.name m.fields).1, .ExtractFields⟩,
             { m with fields := [] },
             (nm.get_or_create_message m.name m.fields).2))
    ∧ (∀ res m' nm2, o.parse_body m em nm = .ok (res, m', nm2) →
        m'.is_empty = true ∧ o.parse_query_str m' nm2 = (none, m', nm2)) := by
  refine ⟨fun hi => ?_, fun hi => ?_, fun res m' nm2 hok => ?_⟩
  · simp [HttpOption.parse_body, h, hi, Message.remove_all_fields]
  · simp [HttpOption.parse_body, h, hi, Message.remove_all_fields]
  · by_cases hi : m.is_intact = true
    · simp [HttpOption.parse_body, h, hi, Message.remove_all_fields] at hok
      obtain ⟨-, h2, h3⟩ := hok
      subst h2; subst h3
      exact ⟨rfl, by simp [HttpOption.parse_query_str, Message.is_empty]⟩
    · simp [HttpOption.parse_body, h, hi, Message.remove_all_fields] at hok
      obtain ⟨-, h2, h3⟩ := hok
      subst h2; subst h3
      exact ⟨rfl, by simp [HttpOption.parse_query_str, Message.is_empty]⟩

/-- C3 witness: a fully intact message under a wildcard body resolves
verbatim to the original message type, creates nothing in the registry, and
leaves an emptied working message. -/
theorem c3_witness :
    wOptStar.body = some "*" ∧ wMsg.is_intact = true ∧
    HttpOption.parse_body wOptStar wMsg [] [] =
      .ok (some ⟨wMsg.name, .VerbatimRequest⟩, { wMsg with fields := [] }, []) :=
  ⟨rfl, by decide, (c3_wildcard_body wOptStar wMsg [] [] rfl).1 (by decide)⟩

/-- C4: single-named-field body: after the named field is found and removed,
the mode is chosen in priority order: a field whose type names an existing
message binds that nested type (no synthesis, registry untouched); else a
previously intact single-field message binds the original type verbatim;
else a single-field struct is obtained from the registry. The intactness
test is read before the removal. -/
theorem c4_single_field_body (o : HttpOption) (m : Message) (em : ExistingMessages)
    (nm : NewMessages) (b : String) (hb : o.body = some b) (hstar : b ≠ "*")
    (f : MsgField) (m' : Message) (hr : m.remove_field b = some (f, m')) :
    (∀ nested, em.get_message f.ty = some nested →
      o.parse_body m em nm = .ok (some ⟨nested.name, .VerbatimBinding f.name⟩, m', nm))
    ∧ (em.get_message f.ty = none → m.intact_single_field = true →
      o.parse_body m em nm = .ok (some ⟨m.name, .VerbatimRequest⟩, m', nm))
    ∧ (em.get_message f.ty = none → m.intact_single_field = false →
      o.parse_body m em nm =
        .ok (some ⟨(nm.get_or_create_message m.name [f]).1, .ExtractFields⟩, m',
             (nm.get_or_create_message m.name [f]).2)) := by
  have hbs : (b == "*") = false := by simp [hstar]
  have hname : m'.name = m.name := (remove_field_spec m b f m' hr).2.2.1
  refine ⟨fun nested hn => ?_, fun hn hsf => ?_, fun hn hsf => ?_⟩
  · simp [HttpOption.parse_body, hb, hbs, hr, hn]
  · simp [HttpOption.parse_body, hb, hbs, hr, hn, hsf, hname]
  · simp [HttpOption.parse_body, hb, hbs, hr, hn, hsf, hname]

/-- C4 witness: scenario B (single-field intact message, body names that
field) resolves verbatim to the original input type, and scenario C (field
whose type is a known message) binds the nested message type directly. -/
theorem c4_witness :
    (HttpOption.parse_body wOptName wMsgOne [] [] =
      .ok (some ⟨wMsgOne.name, .VerbatimRequest⟩, { wMsgOne with fields := [] }, []))
    ∧ (HttpOption.parse_body ⟨"GET", "/search", some "filter"⟩ wMsgFilter
        [("FilterMsg", wFilterMsg)] [] =
      .ok (some ⟨wFilterMsg.name, .VerbatimBinding wFilter.name⟩,
           { wMsgFilter with fields := [] }, [])) :=
  ⟨(c4_single_field_body wOptName wMsgOne [] [] "name" rfl (by decide) wName
      { wMsgOne with fields := [] } (by decide)).2.1 (by decide) (by decide),
   (c4_single_field_body ⟨"GET", "/search", some "filter"⟩ wMsgFilter
      [("FilterMsg", wFilterMsg)] [] "filter" rfl (by decide) wFilter
      { wMsgFilter with fields := [] } (by decide)).1 wFilterMsg (by decide)⟩

/-- C2 (amended): in the three-callback protocol, `finalize` only delegates to
the wrapped inner generator and writes nothing of its own — its output does
not depend on the accumulated registry or modules — while `finalize_package`,
after delegating, appends every synthesized body struct declaration, then
every synthesized query struct declaration, then the accumulated service
modules. -/
theorem c2_finalize_delegates_package_flushes (fin fp : String → String)
    (g g' : Generator) (buf : String) :
    Generator.finalize fin g buf = fin buf
    ∧ Generator.finalize fin g buf = Generator.finalize fin g' buf
    ∧ Generator.finalize_package fp g buf =
        fp buf ++ String.join ((allValues g.new_messages.body_messages).map generate_struct)
               ++ String.join ((allValues g.new_messages.query_messages).map generate_struct)
               ++ String.join g.modules :=
  ⟨rfl, rfl, rfl⟩

/-- C2 counterexample: with a pending synthesized struct and the identity as
the wrapped generator, `finalize_package` writes output of its own (so it does
not merely delegate), while `finalize` writes nothing (so it is not the flush
point) — the claim has the two callbacks swapped. -/
theorem c2_counterexample :
    Generator.finalize_package (fun b => b) wGen "" ≠ ""
    ∧ Generator.finalize (fun b => b) wGen "" = "" := by
  constructor
  · decide
  · rfl

/-- C6: for any operation sequence from a fresh `Message`, the stored original
field count always equals the current field-list length plus the number of
fields successfully removed so far; consequently `is_intact` holds exactly
when nothing has ever been removed, a fresh zero-field message is intact, and
appending an addition changes neither the removal count nor intactness. -/
theorem c6_intactness_invariant (name doc : String) (ops : List Op) (f : MsgField) :
    (applyCount (Message.new name doc) 0 ops).1.field_count
      = (applyCount (Message.new name doc) 0 ops).1.fields.length
        + (applyCount (Message.new name doc) 0 ops).2
    ∧ ((applyCount (Message.new name doc) 0 ops).1.is_intact = true
        ↔ (applyCount (Message.new name doc) 0 ops).2 = 0)
    ∧ (Message.new name doc).is_intact = true
    ∧ (applyCount (Message.new name doc) 0 (ops ++ [Op.add f])).2
        = (applyCount (Message.new name doc) 0 ops).2
    ∧ ((applyCount (Message.new name doc) 0 (ops ++ [Op.add f])).1.is_intact
        = (applyCount (Message.new name doc) 0 ops).1.is_intact) := by
  have hstep : ∀ (ops : List Op) (m : Message) (r : Nat),
      m.field_count = m.fields.length + r →
      (applyCount m r ops).1.field_count
        = (applyCount m r ops).1.fields.length + (applyCount m r ops).2 := by
    intro ops
    induction ops with
    | nil => intro m r h; simpa [applyCount] using h
    | cons op rest ih =>
      intro m r h
      cases op with
      | add g =>
        rw [applyCount]
        exact ih (m.add_field g) r (by simp [Message.add_field, h]; omega)
      | adds gs =>
        rw [applyCount]
        exact ih (m.add_fields gs) r (by simp [Message.add_fields, h]; omega)
      | rem n =>
        rw [applyCount]
        cases hr : m.remove_field n with
        | none => exact ih m r h
        | some p =>
          obtain ⟨g, m'⟩ := p
          obtain ⟨-, -, -, -, hc, hl⟩ := remove_field_spec m n g m' hr
          exact ih m' (r + 1) (by omega)
      | remAll =>
        rw [applyCount]
        exact ih _ (r + m.fields.length)
          (by simp [Message.remove_all_fields] at *; omega)
  have happend : ∀ (ops' : List Op) (ops : List Op) (m : Message) (r : Nat),
      applyCount m r (ops ++ ops')
        = applyCount (applyCount m r ops).1 (applyCount m r ops).2 ops' := by
    intro ops' ops
    induction ops with
    | nil => intro m r; simp [applyCount]
    | cons op rest ih =>
      intro m r
      cases op with
      | add g => rw [List.cons_append, applyCount, applyCount]; exact ih _ _
      | adds gs => rw [List.cons_append, applyCount, applyCount]; exact ih _ _
      | rem n =>
        rw [List.cons_append, applyCount, applyCount]
        cases hr : m.remove_field n with
        | none => exact ih _ _
        | some p => exact ih _ _
      | remAll => rw [List.cons_append, applyCount, applyCount]; exact ih _ _
  have hinv := hstep ops (Message.new name doc) 0 (by simp [Message.new])
  have hiff : (applyCount (Message.new name doc) 0 ops).1.is_intact = true
      ↔ (applyCount (Message.new name doc) 0 ops).2 = 0 := by
    rw [Message.is_intact, beq_iff_eq, hinv]
    omega
  have hadd := happend [Op.add f] ops (Message.new name doc) 0
  refine ⟨hinv, hiff, by simp [Message.is_intact, Message.new], ?_, ?_⟩
  · rw [hadd, applyCount, applyCount]
  · rw [hadd, applyCount, applyCount]
    rw [Bool.eq_iff_iff]
    simp only [Message.is_intact, Message.add_field, beq_iff_eq, List.length_append,
      List.length_cons, List.length_nil]
    omega

/-- `fieldEq` holds exactly when the two fields share a dedup key. -/
theorem fieldEq_iff_key (f g : MsgField) : fieldEq f g = true ↔ fieldKey f = fieldKey g := by
  simp [fieldEq, fieldKey, Prod.ext_iff]

/-- A linear `any (fieldEq f)` scan is membership of the field's key. -/
theorem any_fieldEq_iff (f : MsgField) (fs : List MsgField) :
    fs.any (fieldEq f) = true ↔ fieldKey f ∈ fs.map fieldKey := by
  simp only [List.any_eq_true, List.mem_map]
  constructor
  · rintro ⟨g, hg, he⟩
    exact ⟨g, hg, ((fieldEq_iff_key f g).mp he).symm⟩
  · rintro ⟨g, hg, he⟩
    exact ⟨g, hg, (fieldEq_iff_key f g).mpr he.symm⟩

/-- `same_fields` only depends on the multiset of dedup keys of the supplied
list (length plus key membership), so key-permuted field lists are
interchangeable. -/
theorem same_fields_congr (fs1 fs2 : List MsgField)
    (hperm : (fs1.map fieldKey).Perm (fs2.map fieldKey)) (M : Message) :
    M.same_fields fs1 = M.same_fields fs2 := by
  have hlen : fs1.length = fs2.length := by
    have h := hperm.length_eq
    simpa using h
  rw [Bool.eq_iff_iff]
  simp only [Message.same_fields, Bool.and_eq_true, beq_iff_eq, List.all_eq_true]
  constructor
  · rintro ⟨h1, h2⟩
    refine ⟨h1.trans hlen, fun f hf => ?_⟩
    exact (any_fieldEq_iff f fs2).mpr (hperm.mem_iff.mp ((any_fieldEq_iff f fs1).mp (h2 f hf)))
  · rintro ⟨h1, h2⟩
    refine ⟨h1.trans hlen.symm, fun f hf => ?_⟩
    exact (any_fieldEq_iff f fs1).mpr (hperm.mem_iff.mpr ((any_fieldEq_iff f fs2).mp (h2 f hf)))

/-- The registry scan finds the same (first) match for key-permuted field lists. -/
theorem findSame_congr (fs1 fs2 : List MsgField)
    (hperm : (fs1.map fieldKey).Perm (fs2.map fieldKey)) :
    ∀ msgs : List Message, findSame msgs fs1 = findSame msgs fs2 := by
  intro msgs
  induction msgs with
  | nil => rfl
  | cons M t ih =>
    rw [findSame, findSame, List.find?_cons, List.find?_cons,
      same_fields_congr fs1 fs2 hperm M]
    cases M.same_fields fs2 with
    | false => exact ih
    | true => rfl

/-- Reading back the bucket just written. -/
theorem bucket_setBucket (nm : NewMessages) (n : String) (msgs : List Message) :
    NewMessages.bucket (NewMessages.setBucket nm n msgs) n = msgs := by
  induction nm with
  | nil => simp [NewMessages.setBucket, NewMessages.bucket, List.find?_cons]
  | cons p rest ih =>
    rw [NewMessages.setBucket]
    by_cases h : p.1 = n
    · rw [if_pos (by simp [h])]
      simp [NewMessages.bucket, List.find?_cons]
    · rw [if_neg (by simp [h])]
      show NewMessages.bucket (p :: NewMessages.setBucket rest n msgs) n = msgs
      have hb : (p.1 == n) = false := by simp [h]
      rw [NewMessages.bucket, List.find?_cons, hb]
      exact ih

/-- A scan that failed over `msgs` and matches the appended message finds it. -/
theorem findSame_append_single (msgs : List Message) (M1 : Message) (fs : List MsgField)
    (h : findSame msgs fs = none) (hM : M1.same_fields fs = true) :
    findSame (msgs ++ [M1]) fs = some M1 := by
  induction msgs with
  | nil => simp [findSame, List.find?_cons, hM]
  | cons M t ih =>
    rw [findSame, List.cons_append, List.find?_cons]
    rw [findSame, List.find?_cons] at h
    cases hMf : M.same_fields fs with
    | true => rw [hMf] at h; simp at h
    | false =>
      rw [hMf] at h
      exact ih h

/-- C7: the synthesized-message registry's get-or-create is idempotent: for
one origin and two field lists equal as order-independent sets under
(name, declared type) field equality — documentation and order ignored — the
second call returns the identical type name and leaves the registry map
unchanged, and at most one message is ever added to the origin's bucket. -/
theorem c7_registry_dedup_idempotent (bucketMap : List (String × List Message))
    (origin doc1 doc2 : String) (fs1 fs2 : List MsgField) (suffix type_suffix : String)
    (hperm : (fs1.map fieldKey).Perm (fs2.map fieldKey)) :
    (Build.get_or_create_message
        (Build.get_or_create_message bucketMap origin doc1 fs1 suffix type_suffix).2
        origin doc2 fs2 suffix type_suffix).1
      = (Build.get_or_create_message bucketMap origin doc1 fs1 suffix type_suffix).1
    ∧ (Build.get_or_create_message
        (Build.get_or_create_message bucketMap origin doc1 fs1 suffix type_suffix).2
        origin doc2 fs2 suffix type_suffix).2
      = (Build.get_or_create_message bucketMap origin doc1 fs1 suffix type_suffix).2
    ∧ (NewMessages.bucket
        (Build.get_or_create_message bucketMap origin doc1 fs1 suffix type_suffix).2
        origin).length
      ≤ (NewMessages.bucket bucketMap origin).length + 1 := by
  have hlen : fs1.length = fs2.length := by
    have h := hperm.length_eq
    simpa using h
  cases hf : findSame (NewMessages.bucket bucketMap origin) fs1 with
  | some M =>
    have hf2 : findSame (NewMessages.bucket bucketMap origin) fs2 = some M := by
      rw [← findSame_congr fs1 fs2 hperm]
      exact hf
    have e1 : Build.get_or_create_message bucketMap origin doc1 fs1 suffix type_suffix
        = (M.name, bucketMap) := by
      simp only [Build.get_or_create_message, hf]
    have e2 : Build.get_or_create_message bucketMap origin doc2 fs2 suffix type_suffix
        = (M.name, bucketMap) := by
      simp only [Build.get_or_create_message, hf2]
    simp [e1, e2, Nat.le_succ]
  | none =>
    have hf2 : findSame (NewMessages.bucket bucketMap origin) fs2 = none := by
      rw [← findSame_congr fs1 fs2 hperm]
      exact hf
    have hM1same : ∀ N : String,
        ((Message.new N doc1).add_fields fs1).same_fields fs2 = true := by
      intro N
      simp only [Message.same_fields, Message.new, Message.add_fields, List.nil_append,
        Bool.and_eq_true, beq_iff_eq, List.all_eq_true]
      refine ⟨hlen, fun f hfmem => ?_⟩
      exact (any_fieldEq_iff f fs2).mpr (hperm.mem_iff.mp (List.mem_map_of_mem fieldKey hfmem))
    have e1 : Build.get_or_create_message bucketMap origin doc1 fs1 suffix type_suffix
        = (((Message.new
              (if (NewMessages.bucket bucketMap origin).isEmpty then
                origin ++ suffix ++ type_suffix
              else
                origin ++ suffix ++ toString ((NewMessages.bucket bucketMap origin).length + 1)
                  ++ type_suffix) doc1).add_fields fs1).name,
           NewMessages.setBucket bucketMap origin
             (NewMessages.bucket bucketMap origin ++
              [(Message.new
                  (if (NewMessages.bucket bucketMap origin).isEmpty then
                    origin ++ suffix ++ type_suffix
                  else
                    origin ++ suffix ++ toString ((NewMessages.bucket bucketMap origin).length + 1)
                      ++ type_suffix) doc1).add_fields fs1])) := by
      simp only [Build.get_or_create_message, hf]
    generalize hN : (if (NewMessages.bucket bucketMap origin).isEmpty then
        origin ++ suffix ++ type_suffix
      else
        origin ++ suffix ++ toString ((NewMessages.bucket bucketMap origin).length + 1)
          ++ type_suffix) = N at e1
    have hbkt : NewMessages.bucket
        (NewMessages.setBucket bucketMap origin
          (NewMessages.bucket bucketMap origin ++ [(Message.new N doc1).add_fields fs1]))
        origin
        = NewMessages.bucket bucketMap origin ++ [(Message.new N doc1).add_fields fs1] :=
      bucket_setBucket bucketMap origin _
    have hf3 : findSame
        (NewMessages.bucket bucketMap origin ++ [(Message.new N doc1).add_fields fs1]) fs2
        = some ((Message.new N doc1).add_fields fs1) :=
      findSame_append_single _ _ _ hf2 (hM1same N)
    have e2 : Build.get_or_create_message
        (NewMessages.setBucket bucketMap origin
          (NewMessages.bucket bucketMap origin ++ [(Message.new N doc1).add_fields fs1]))
        origin doc2 fs2 suffix type_suffix
        = (((Message.new N doc1).add_fields fs1).name,
           NewMessages.setBucket bucketMap origin
             (NewMessages.bucket bucketMap origin ++ [(Message.new N doc1).add_fields fs1])) := by
      simp only [Build.get_or_create_message, hbkt, hf3]
    refine ⟨?_, ?_, ?_⟩
    · rw [e1]
      simp [e2]
    · rw [e1]
      simp [e2]
    · rw [e1]
      simp [hbkt]

/-- C7 witness: reordered fields with different documentation dedup to the
first call's identifier on a concrete empty registry. -/
theorem c7_witness :
    (([wId, wName].map fieldKey).Perm
      ([⟨"name", "String", "from query"⟩, ⟨"id", "u32", "other doc"⟩].map fieldKey))
    ∧ (Build.get_or_create_message
        (Build.get_or_create_message [] "In" "" [wId, wName] "Body" "__").2
        "In" "alt doc" [⟨"name", "String", "from query"⟩, ⟨"id", "u32", "other doc"⟩]
        "Body" "__").1
      = (Build.get_or_create_message [] "In" "" [wId, wName] "Body" "__").1 :=
  ⟨by decide,
   (c7_registry_dedup_idempotent [] "In" "" "alt doc" [wId, wName]
      [⟨"name", "String", "from query"⟩, ⟨"id", "u32", "other doc"⟩] "Body" "__"
      (by decide)).1⟩

/-- `generateLoop` succeeds whenever the per-method generator does, and once
the accumulator is true it stays true. -/
theorem generateLoop_all_ok (gf : Build.Method → Except String (Option Unit)) :
    ∀ ms : List Build.Method, (∀ m ∈ ms, ∃ r, gf m = .ok r) →
      ∀ acc, ∃ b, Build.generateLoop gf ms acc = .ok b ∧ (acc = true → b = true) := by
  intro ms
  induction ms with
  | nil => intro _ acc; exact ⟨acc, rfl, fun h => h⟩
  | cons m t ih =>
    intro hall acc
    obtain ⟨r, hr⟩ := hall m (List.mem_cons_self m t)
    have hall' : ∀ m' ∈ t, ∃ r', gf m' = .ok r' := fun m' hm' => hall m' (List.mem_cons_of_mem m hm')
    cases r with
    | none =>
      obtain ⟨b, hb, hmono⟩ := ih hall' acc
      exact ⟨b, by rw [Build.generateLoop, hr]; exact hb, hmono⟩
    | some u =>
      obtain ⟨b, hb, hmono⟩ := ih hall' (acc || m.client_streaming)
      refine ⟨b, by rw [Build.generateLoop, hr]; exact hb, fun h => hmono (by simp [h])⟩

/-- `generateLoop` returns `.ok true` when every method generates cleanly and
some client-streaming method actually produced a handler. -/
theorem generateLoop_true (gf : Build.Method → Except String (Option Unit)) :
    ∀ ms : List Build.Method, (∀ m ∈ ms, ∃ r, gf m = .ok r) →
      (∃ m ∈ ms, m.client_streaming = true ∧ gf m = .ok (some ())) →
      ∀ acc, Build.generateLoop gf ms acc = .ok true := by
  intro ms
  induction ms with
  | nil => rintro _ ⟨m, hm, -⟩; simp at hm
  | cons m t ih =>
    rintro hall ⟨mw, hmw, hcs, hok⟩ acc
    obtain ⟨r, hr⟩ := hall m (List.mem_cons_self m t)
    have hall' : ∀ m' ∈ t, ∃ r', gf m' = .ok r' := fun m' hm' => hall m' (List.mem_cons_of_mem m hm')
    rcases List.mem_cons.mp hmw with rfl | hmem
    · rw [hok] at hr
      cases r with
      | none => simp at hr
      | some u =>
        rw [Build.generateLoop, hok, hcs]
        obtain ⟨b, hb, hmono⟩ := generateLoop_all_ok gf t hall' (acc || true)
        rw [hb, hmono (by simp)]
    · cases r with
      | none =>
        rw [Build.generateLoop, hr]
        exact ih hall' ⟨mw, hmem, hcs, hok⟩ acc
      | some u =>
        rw [Build.generateLoop, hr]
        exact ih hall' ⟨mw, hmem, hcs, hok⟩ (acc || m.client_streaming)

/-- A list with a non-empty right part of an append is non-empty. -/
theorem isEmpty_append_false_right {α : Type} (l1 l2 : List α) (h : l2 ≠ []) :
    (l1 ++ l2).isEmpty = false := by
  cases h12 : l1 ++ l2 with
  | nil => exact absurd (List.append_eq_nil.mp h12).2 h
  | cons a t => rfl

/-- A list with a non-empty left part of an append is non-empty. -/
theorem isEmpty_append_false_left {α : Type} (l1 l2 : List α) (h : l1 ≠ []) :
    (l1 ++ l2).isEmpty = false := by
  cases h12 : l1 ++ l2 with
  | nil => exact absurd (List.append_eq_nil.mp h12).1 h
  | cons a t => rfl

/-- C9 (amended): the three configuration conflicts are rejected at
generation time: (1) a client-streaming method whose binding extracted any
path or query fields (path-bound fields, or an extract-mode query with
fields; a verbatim-mode query extractor does not trigger this) fails with an
error naming the method, before any body handling; (2) a service whose
methods all generate and where some client-streaming method produced a
handler fails under the default trait-object state type with an error naming
the service; (3) a generic state type combined with OpenAPI generation fails
with an error naming the service, before any method is processed. -/
theorem c9_config_conflicts_rejected :
    (∀ (method_name : String) (md : Build.MethodDetails) (input_type req_name : String),
      (md.path_fields ≠ [] ∨
        ∃ ty fs, md.query_str = some ⟨ty, .ExtractFields fs⟩ ∧ fs ≠ []) →
      Build.FunctionParts.new method_name md input_type true req_name =
        .error ("Client streaming methods are not supported with query or path parameters: (Method: "
          ++ method_name ++ ")"))
    ∧ (∀ (gf : Build.Method → Except String (Option Unit)) (config : Build.GeneratorConfig)
        (service : Build.Service),
        (config.state_types.find? fun p => p.1 == service.name).map Prod.snd = none →
        (∀ m ∈ service.methods, ∃ r, gf m = .ok r) →
        (∃ m ∈ service.methods, m.client_streaming = true ∧ gf m = .ok (some ())) →
        Build.generate_service gf config service =
          .error ("Client streaming methods are not supported when the state type is a trait object: (Service: "
            ++ service.name ++ ")"))
    ∧ (∀ (gf : Build.Method → Except String (Option Unit)) (config : Build.GeneratorConfig)
        (service : Build.Service),
        (config.state_types.find? fun p => p.1 == service.name).map Prod.snd
          = some Build.StateType.Generic →
        config.generate_openapi = true →
        Build.generate_service gf config service =
          .error ("A generic service state type is not supported when generating OpenAPI documentation: (Service: "
            ++ service.name ++ ")")) := by
  refine ⟨fun method_name md input_type req_name hcond => ?_,
          fun gf config service hstate hall hsome => ?_,
          fun gf config service hstate hoa => ?_⟩
  · have hne : ((Build.make_path_extractor md.path_fields).2
        ++ (Build.make_query_extractor md.query_str req_name).2).isEmpty = false := by
      rcases hcond with hp | ⟨ty, fs, hq, hfs⟩
      · cases hpf : md.path_fields with
        | nil => exact absurd hpf hp
        | cons a t =>
          rw [Build.make_path_extractor, if_neg (by simp [hpf])]
          exact isEmpty_append_false_left _ _ (by simp [hpf])
      · rw [hq]
        exact isEmpty_append_false_right _ _ (by simpa [Build.make_query_extractor] using hfs)
    simp [Build.FunctionParts.new, hne]
  · have hloop := generateLoop_true gf service.methods hall hsome false
    simp [Build.generate_service, hstate, hloop, Build.ServiceType.new]
  · simp [Build.generate_service, hstate, hoa, Build.ServiceType.new]

/-- C9 counterexample: a client-streaming method whose resolved binding has a
verbatim-mode query extractor (the whole remaining message bound as
`Query<T>`) is accepted by `FunctionParts::new` — no error is raised even
though a query extractor is present, so rejection keys on extracted fields,
not on the presence of a query extractor. -/
theorem c9_counterexample :
    wQueryVerbatimDetails.query_str.isSome = true
    ∧ Build.FunctionParts.new "m" wQueryVerbatimDetails "T" true "req" =
        .ok ⟨none, some "req: Query<super::T>, ", none, none⟩ := by
  constructor
  · rfl
  · rfl

/-- C9 witness: the three rejections at concrete inputs — a client-streaming
method with one path-bound field, a trait-object service with one
client-streaming handler, and a generic-state service with OpenAPI enabled. -/
theorem c9_witness :
    Build.FunctionParts.new "get_item" ⟨"GET", "/x", [wId], none, none⟩ "T" true "req" =
      .error ("Client streaming methods are not supported with query or path parameters: (Method: "
        ++ "get_item" ++ ")")
    ∧ Build.generate_service (fun _ => .ok (some ()))
        ⟨[], false, false, "Body", "Query", "__"⟩
        ⟨"Svc", [⟨"m", "M", "In", true, false⟩]⟩ =
      .error ("Client streaming methods are not supported when the state type is a trait object: (Service: "
        ++ "Svc" ++ ")")
    ∧ Build.generate_service (fun _ => .ok (some ()))
        ⟨[("Svc2", .Generic)], true, false, "Body", "Query", "__"⟩
        ⟨"Svc2", []⟩ =
      .error ("A generic service state type is not supported when generating OpenAPI documentation: (Service: "
        ++ "Svc2" ++ ")") :=
  ⟨(c9_config_conflicts_rejected).1 "get_item" ⟨"GET", "/x", [wId], none, none⟩ "T" "req"
      (Or.inl (by decide)),
   (c9_config_conflicts_rejected).2.1 (fun _ => .ok (some ()))
      ⟨[], false, false, "Body", "Query", "__"⟩ ⟨"Svc", [⟨"m", "M", "In", true, false⟩]⟩
      rfl (fun m _ => ⟨some (), rfl⟩)
      ⟨⟨"m", "M", "In", true, false⟩, List.mem_cons_self _ _, rfl, rfl⟩,
   (c9_config_conflicts_rejected).2.2 (fun _ => .ok (some ()))
      ⟨[("Svc2", .Generic)], true, false, "Body", "Query", "__"⟩ ⟨"Svc2", []⟩
      (by decide) rfl⟩


/-- Successful path extraction: the input field multiset splits into the
extracted path fields plus the remainder, the message metadata is untouched,
and the extracted names are exactly the placeholder names in order. -/
theorem parsePatternGo_ok (parts : List String) :
    ∀ (m : Message) (pf : List MsgField) (m1 : Message),
      parsePatternGo parts m = .ok (pf, m1) →
      m.fields.Perm (pf ++ m1.fields) ∧ m1.name = m.name ∧ m1.doc = m.doc
      ∧ m1.field_count = m.field_count
      ∧ pf.map MsgField.name
        = parts.filterMap fun p =>
            if isPlaceholder p then some (placeholderName p) else none := by
  induction parts with
  | nil =>
    intro m pf m1 h
    simp only [parsePatternGo, Except.ok.injEq, Prod.mk.injEq] at h
    obtain ⟨h1, h2⟩ := h
    subst h1; subst h2
    simp
  | cons part rest ih =>
    intro m pf m1 h
    by_cases hpl : isPlaceholder part = true
    · cases hr : m.remove_field (placeholderName part) with
      | none => simp [parsePatternGo, hpl, hr] at h
      | some p =>
        obtain ⟨f, m'⟩ := p
        cases hgo : parsePatternGo rest m' with
        | error e => simp [parsePatternGo, hpl, hr, hgo] at h
        | ok q =>
          obtain ⟨pf', m2⟩ := q
          simp only [parsePatternGo, if_pos hpl, hr, hgo, Except.ok.injEq,
            Prod.mk.injEq] at h
          obtain ⟨h1, h2⟩ := h
          subst h1; subst h2
          obtain ⟨hperm, hn, hd, hc, hmap⟩ := ih m' pf' m2 hgo
          obtain ⟨hfname, hmperm, hn', hd', hc', -⟩ :=
            remove_field_spec m (placeholderName part) f m' hr
          refine ⟨hmperm.trans (hperm.cons f), hn.trans hn', hd.trans hd',
            hc.trans hc', ?_⟩
          simp [List.filterMap_cons, hpl, hfname, hmap]
    · have h' : parsePatternGo rest m = .ok (pf, m1) := by
        simpa [parsePatternGo, hpl] using h
      obtain ⟨hperm, hn, hd, hc, hmap⟩ := ih m pf m1 h'
      refine ⟨hperm, hn, hd, hc, ?_⟩
      simp [List.filterMap_cons, hpl, hmap]

/-- Failed path extraction: the error names one of the pattern's placeholder
field names. -/
theorem parsePatternGo_error (parts : List String) :
    ∀ (m : Message) (e : String), parsePatternGo parts m = .error e →
      ∃ fname, e = "Path field not found: " ++ fname
        ∧ fname ∈ parts.filterMap fun p =>
            if isPlaceholder p then some (placeholderName p) else none := by
  induction parts with
  | nil => intro m e h; simp [parsePatternGo] at h
  | cons part rest ih =>
    intro m e h
    by_cases hpl : isPlaceholder part = true
    · cases hr : m.remove_field (placeholderName part) with
      | none =>
        have he : e = "Path field not found: " ++ placeholderName part := by
          have h' := h
          simp only [parsePatternGo, if_pos hpl, hr, Except.error.injEq] at h'
          exact h'.symm
        exact ⟨placeholderName part, he, by simp [List.filterMap_cons, hpl]⟩
      | some p =>
        obtain ⟨f, m'⟩ := p
        cases hgo : parsePatternGo rest m' with
        | error e' =>
          have he : e' = e := by
            simp only [parsePatternGo, if_pos hpl, hr, hgo, Except.error.injEq] at h
            exact h
          obtain ⟨fname, h1, h2⟩ := ih m' e' hgo
          exact ⟨fname, by rw [← he, h1], by simp [List.filterMap_cons, hpl, h2]⟩
        | ok q =>
          obtain ⟨pf', m2⟩ := q
          simp [parsePatternGo, hpl, hr, hgo] at h
    · have h' : parsePatternGo rest m = .error e := by
        simpa [parsePatternGo, hpl] using h
      obtain ⟨fname, h1, h2⟩ := ih m e h'
      exact ⟨fname, h1, by simp [List.filterMap_cons, hpl, h2]⟩

/-- `parse_body` with a missing (non-wildcard) body field errors, naming it. -/
theorem parse_body_missing (o : HttpOption) (m : Message) (em : ExistingMessages)
    (nm : NewMessages) (b : String) (hb : o.body = some b) (hbs : b ≠ "*")
    (hr : m.remove_field b = none) :
    o.parse_body m em nm = .error ("Field not found: " ++ b) := by
  simp [HttpOption.parse_body, hb, show (b == "*") = false by simp [hbs], hr]

/-- `parse_body` errors only on a missing named (non-wildcard) body field,
with the error naming it. -/
theorem parse_body_error (o : HttpOption) (m : Message) (em : ExistingMessages)
    (nm : NewMessages) (e : String) (h : o.parse_body m em nm = .error e) :
    ∃ b, o.body = some b ∧ b ≠ "*" ∧ e = "Field not found: " ++ b
      ∧ m.remove_field b = none := by
  cases hb : o.body with
  | none => simp [HttpOption.parse_body, hb] at h
  | some b =>
    by_cases hbs : b = "*"
    · subst hbs
      cases hi : m.is_intact <;>
        simp [HttpOption.parse_body, hb, hi] at h
    · have hbsb : (b == "*") = false := by simp [hbs]
      cases hr : m.remove_field b with
      | none =>
        have he : e = "Field not found: " ++ b := by
          simp only [HttpOption.parse_body, hb, hbsb, Bool.false_eq_true, if_false,
            hr, Except.error.injEq] at h
          exact h.symm
        exact ⟨b, rfl, hbs, he, hr⟩
      | some p =>
        obtain ⟨f, m'⟩ := p
        cases hem : em.get_message f.ty with
        | some nested => simp [HttpOption.parse_body, hb, hbsb, hr, hem] at h
        | none =>
          cases hsf : m.intact_single_field <;>
            simp [HttpOption.parse_body, hb, hbsb, hr, hem, hsf] at h

/-- `parse` success decomposes into its three phases. -/
theorem parse_ok_decomp (o : HttpOption) (msg : Message) (em : ExistingMessages)
    (nm : NewMessages) (det : MethodDetails) (nm' : NewMessages)
    (h : o.parse msg em nm = .ok (det, nm')) :
    ∃ pf m1 bodyOpt m2 nm1,
      o.parse_pattern msg = .ok (pf, m1)
      ∧ o.parse_body m1 em nm = .ok (bodyOpt, m2, nm1)
      ∧ det = { method := o.method, path := o.build_path, path_fields := pf,
                query_str := (o.parse_query_str m2 nm1).1, body := bodyOpt }
      ∧ nm' = (o.parse_query_str m2 nm1).2.2 := by
  cases hp : o.parse_pattern msg with
  | error e => simp [HttpOption.parse, hp] at h
  | ok q =>
    obtain ⟨pf, m1⟩ := q
    cases hbody : o.parse_body m1 em nm with
    | error e => simp [HttpOption.parse, hp, hbody] at h
    | ok t =>
      obtain ⟨bodyOpt, m2, nm1⟩ := t
      simp only [HttpOption.parse, hp, hbody, Except.ok.injEq, Prod.mk.injEq] at h
      obtain ⟨h1, h2⟩ := h
      exact ⟨pf, m1, bodyOpt, m2, nm1, rfl, hbody, h1.symm, h2.symm⟩

/-- `parse` failure comes from the pattern phase or the body phase. -/
theorem parse_error_decomp (o : HttpOption) (msg : Message) (em : ExistingMessages)
    (nm : NewMessages) (e : String) (h : o.parse msg em nm = .error e) :
    o.parse_pattern msg = .error e
    ∨ ∃ pf m1, o.parse_pattern msg = .ok (pf, m1) ∧ o.parse_body m1 em nm = .error e := by
  cases hp : o.parse_pattern msg with
  | error e' =>
    left
    have he : e' = e := by
      simp only [HttpOption.parse, hp, Except.error.injEq] at h
      exact h
    subst he
    rfl
  | ok q =>
    obtain ⟨pf, m1⟩ := q
    cases hbody : o.parse_body m1 em nm with
    | error e' =>
      right
      have he : e' = e := by
        simp only [HttpOption.parse, hp, hbody, Except.error.injEq] at h
        exact h
      subst he
      exact ⟨pf, m1, rfl, hbody⟩
    | ok t =>
      obtain ⟨bodyOpt, m2, nm1⟩ := t
      simp [HttpOption.parse, hp, hbody] at h

/-- The wildcard-body branch of `parse_body`, as one equation. -/
theorem parse_body_star (o : HttpOption) (m : Message) (em : ExistingMessages)
    (nm : NewMessages) (h : o.body = some "*") :
    o.parse_body m em nm =
      if m.is_intact then
        .ok (some ⟨m.name, .VerbatimRequest⟩, { m with fields := [] }, nm)
      else
        .ok (some ⟨(nm.get_or_create_message m.name m.fields).1, .ExtractFields⟩,
             { m with fields := [] }, (nm.get_or_create_message m.name m.fields).2) := by
  cases hi : m.is_intact <;>
    simp [HttpOption.parse_body, h, hi, Message.remove_all_fields]

/-- The single-field-body branch of `parse_body` after a successful removal,
as one equation. -/
theorem parse_body_single (o : HttpOption) (m : Message) (em : ExistingMessages)
    (nm : NewMessages) (b : String) (hb : o.body = some b) (hbs : b ≠ "*")
    (f : MsgField) (m' : Message) (hr : m.remove_field b = some (f, m')) :
    o.parse_body m em nm =
      match em.get_message f.ty with
      | some nested => .ok (some ⟨nested.name, .VerbatimBinding f.name⟩, m', nm)
      | none =>
        if m.intact_single_field then
          .ok (some ⟨m'.name, .VerbatimRequest⟩, m', nm)
        else
          .ok (some ⟨(nm.get_or_create_message m'.name [f]).1, .ExtractFields⟩, m',
               (nm.get_or_create_message m'.name [f]).2) := by
  simp [HttpOption.parse_body, hb, show (b == "*") = false by simp [hbs], hr]

/-- Successful body resolution consumes a field sublist `bf`: the working
message's fields split (as a multiset) into `bf` plus what remains; no body
spec consumes nothing, a single-field spec consumes exactly the named field,
and body details are produced exactly when a body spec exists. -/
theorem parse_body_ok_consumed (o : HttpOption) (m : Message) (em : ExistingMessages)
    (nm : NewMessages) (bodyOpt : Option MessageDetails) (m2 : Message) (nm1 : NewMessages)
    (h : o.parse_body m em nm = .ok (bodyOpt, m2, nm1)) :
    ∃ bf : List MsgField,
      m.fields.Perm (bf ++ m2.fields)
      ∧ (o.body = none → bf = [] ∧ bodyOpt = none)
      ∧ (∀ b, o.body = some b → b ≠ "*" → bf.map MsgField.name = [b])
      ∧ bodyOpt.isSome = o.body.isSome := by
  cases hb : o.body with
  | none =>
    simp only [HttpOption.parse_body, hb, Except.ok.injEq, Prod.mk.injEq] at h
    obtain ⟨h1, h2, h3⟩ := h
    subst h1; subst h2
    exact ⟨[], by simp, fun _ => ⟨rfl, rfl⟩, by simp [hb], by simp [hb]⟩
  | some b =>
    by_cases hbs : b = "*"
    · subst hbs
      rw [parse_body_star o m em nm hb] at h
      have hm : m2 = { m with fields := [] } ∧ bodyOpt.isSome = true := by
        cases hi : m.is_intact <;>
          · rw [hi] at h
            simp only [Bool.false_eq_true, if_false, if_true, Bool.true_eq_false,
              if_pos, Except.ok.injEq, Prod.mk.injEq, reduceIte] at h
            exact ⟨h.2.1.symm, by rw [← h.1]; rfl⟩
      refine ⟨m.fields, by simp [hm.1], by simp [hb], ?_, by simp [hm.2, hb]⟩
      intro b' hbeq hne
      injection hbeq with hbb
      exact absurd hbb.symm hne
    · cases hr : m.remove_field b with
      | none =>
        rw [parse_body_missing o m em nm b hb hbs hr] at h
        simp at h
      | some p =>
        obtain ⟨f, m'⟩ := p
        obtain ⟨hfname, hperm, -, -, -, -⟩ := remove_field_spec m b f m' hr
        rw [parse_body_single o m em nm b hb hbs f m' hr] at h
        have hm : m2 = m' ∧ bodyOpt.isSome = true := by
          cases hem : em.get_message f.ty with
          | some nested =>
            simp only [hem, Except.ok.injEq, Prod.mk.injEq] at h
            exact ⟨h.2.1.symm, by rw [← h.1]; rfl⟩
          | none =>
            cases hsf : m.intact_single_field <;>
              · simp only [hem, hsf, Bool.false_eq_true, if_false, if_true,
                  Bool.true_eq_false, Except.ok.injEq, Prod.mk.injEq, reduceIte] at h
                exact ⟨h.2.1.symm, by rw [← h.1]; rfl⟩
        refine ⟨[f], ?_, by simp [hb], ?_, by simp [hm.2, hb]⟩
        · rw [hm.1]
          exact hperm
        · intro b' hbeq hne
          injection hbeq with hbb
          simp [hfname, hbb]

/-- C8: binding resolution's outcome contract: `Ok(None)` exactly when no
binding was recorded for the (service, method) pair; any error from a
recorded binding names either a placeholder field of the path template or the
(non-wildcard) body field; a body field absent from the working message after
path extraction is a hard error naming that field; and on success every
placeholder was actually bound, in template order. -/
theorem c8_resolution_contract (opts : HttpOptions) (svc mth : String) (msg : Message)
    (em : ExistingMessages) (nm : NewMessages) :
    ((∃ nm', opts.calculate_messages svc mth msg em nm = .ok (none, nm'))
      ↔ opts.get_http_options svc mth = none)
    ∧ (∀ opt e, opts.get_http_options svc mth = some opt →
        opts.calculate_messages svc mth msg em nm = .error e →
        (∃ fname, e = "Path field not found: " ++ fname ∧ fname ∈ placeholders opt.pattern)
        ∨ (∃ b, opt.body = some b ∧ b ≠ "*" ∧ e = "Field not found: " ++ b))
    ∧ (∀ opt b pf m1, opts.get_http_options svc mth = some opt →
        opt.body = some b → b ≠ "*" →
        opt.parse_pattern msg = .ok (pf, m1) → m1.remove_field b = none →
        opts.calculate_messages svc mth msg em nm = .error ("Field not found: " ++ b))
    ∧ (∀ opt det nm', opts.get_http_options svc mth = some opt →
        opts.calculate_messages svc mth msg em nm = .ok (some det, nm') →
        det.path_fields.map MsgField.name = placeholders opt.pattern) := by
  refine ⟨⟨?_, ?_⟩, ?_, ?_, ?_⟩
  · rintro ⟨nm', h⟩
    cases hopt : opts.get_http_options svc mth with
    | none => rfl
    | some opt =>
      exfalso
      cases hp : opt.parse msg em nm with
      | error e => simp [HttpOptions.calculate_messages, hopt, hp] at h
      | ok t =>
        obtain ⟨d, nm2⟩ := t
        simp [HttpOptions.calculate_messages, hopt, hp] at h
  · intro h
    exact ⟨nm, by simp [HttpOptions.calculate_messages, h]⟩
  · intro opt e hopt he
    cases hp : opt.parse msg em nm with
    | ok t =>
      obtain ⟨d, nm2⟩ := t
      simp [HttpOptions.calculate_messages, hopt, hp] at he
    | error e' =>
      have hee : e' = e := by
        simp only [HttpOptions.calculate_messages, hopt, hp, Except.error.injEq] at he
        exact he
      subst hee
      rcases parse_error_decomp opt msg em nm e' hp with hpe | ⟨pf, m1, hpp, hbe⟩
      · left
        exact parsePatternGo_error _ msg e' hpe
      · right
        obtain ⟨b, hb, hbs, hee', -⟩ := parse_body_error opt m1 em nm e' hbe
        exact ⟨b, hb, hbs, hee'⟩
  · intro opt b pf m1 hopt hb hbs hpp hrn
    have hbody := parse_body_missing opt m1 em nm b hb hbs hrn
    simp [HttpOptions.calculate_messages, hopt, HttpOption.parse, hpp, hbody]
  · intro opt det nm' hopt hok
    cases hp : opt.parse msg em nm with
    | error e => simp [HttpOptions.calculate_messages, hopt, hp] at hok
    | ok t =>
      obtain ⟨d, nm2⟩ := t
      have hd : d = det := by
        simp only [HttpOptions.calculate_messages, hopt, hp, Except.ok.injEq,
          Prod.mk.injEq, Option.some.injEq] at hok
        exact hok.1
      subst hd
      obtain ⟨pf, m1a, bodyOpt, m2, nm1, hpp, -, hdet, -⟩ :=
        parse_ok_decomp opt msg em nm d nm2 hp
      have hpf : d.path_fields = pf := by rw [hdet]
      rw [hpf]
      exact (parsePatternGo_ok _ msg pf m1a hpp).2.2.2.2

/-- C8 witness: a recorded binding whose body names the already-path-consumed
field errors with the field's name; resolution never silently returns
`Ok(None)` for a recorded binding. -/
theorem c8_witness :
    HttpOptions.calculate_messages [("Svc", [("M", ⟨"GET", "/items/{id}", some "id"⟩)])]
      "Svc" "M" wMsg [] [] = .error ("Field not found: " ++ "id") :=
  (c8_resolution_contract [("Svc", [("M", ⟨"GET", "/items/{id}", some "id"⟩)])]
      "Svc" "M" wMsg [] []).2.2.1 ⟨"GET", "/items/{id}", some "id"⟩ "id" [wId] wMsgPart
    (by decide) rfl (by decide) (by decide) (by decide)

/-- C10: each input field is consumed by at most one binding role: a body
spec naming a field already consumed by a path placeholder fails resolution
with the field-not-found error even though the field exists on the original
message, and a template repeating a placeholder cannot resolve at all on a
message with distinct field names. -/
theorem c10_fields_consumed_once (o : HttpOption) (msg : Message) (em : ExistingMessages)
    (nm : NewMessages) (hnd : (msg.fields.map MsgField.name).Nodup) :
    (∀ b pf m1, o.body = some b → b ≠ "*" →
      o.parse_pattern msg = .ok (pf, m1) → b ∈ pf.map MsgField.name →
      o.parse msg em nm = .error ("Field not found: " ++ b))
    ∧ (¬ (placeholders o.pattern).Nodup →
      ∃ e, o.parse msg em nm = .error e) := by
  constructor
  · intro b pf m1 hb hbs hpp hbmem
    obtain ⟨hperm, -, -, -, -⟩ := parsePatternGo_ok _ msg pf m1 hpp
    have hnodup2 : ((pf ++ m1.fields).map MsgField.name).Nodup :=
      (hperm.map MsgField.name).nodup hnd
    rw [List.map_append] at hnodup2
    have hdisj := (List.nodup_append.mp hnodup2).2.2
    have hbnotin : b ∉ m1.fields.map MsgField.name := hdisj hbmem
    have hrn : m1.remove_field b = none := by
      rw [remove_field_eq_none]
      intro f hf heq
      exact hbnotin (heq ▸ List.mem_map_of_mem MsgField.name hf)
    have hbody := parse_body_missing o m1 em nm b hb hbs hrn
    simp [HttpOption.parse, hpp, hbody]
  · intro hdup
    cases hp : o.parse_pattern msg with
    | error e => exact ⟨e, by simp [HttpOption.parse, hp]⟩
    | ok q =>
      obtain ⟨pf, m1⟩ := q
      exfalso
      obtain ⟨hperm, -, -, -, hmap⟩ := parsePatternGo_ok _ msg pf m1 hp
      have hnodup2 : ((pf ++ m1.fields).map MsgField.name).Nodup :=
        (hperm.map MsgField.name).nodup hnd
      rw [List.map_append] at hnodup2
      apply hdup
      have hnodup3 := (List.nodup_append.mp hnodup2).1
      rw [hmap] at hnodup3
      exact hnodup3

/-- C10 witness: input `{id, name}` with `GET /items/{id}` and body `id`:
the path placeholder consumed `id`, so body resolution fails naming `id`
even though `id` exists on the original message. -/
theorem c10_witness :
    wId ∈ wMsg.fields ∧
    HttpOption.parse wOptId wMsg [] [] = .error ("Field not found: " ++ "id") :=
  ⟨by decide,
   (c10_fields_consumed_once wOptId wMsg [] [] (by decide)).1 "id" [wId] wMsgPart
     rfl (by decide) (by decide) (by decide)⟩

/-- No query details are produced only when nothing remained for the query. -/
theorem parse_query_str_none (o : HttpOption) (m : Message) (nm : NewMessages)
    (h : (o.parse_query_str m nm).1 = none) : m.fields = [] := by
  by_cases he : m.is_empty = true
  · cases hf : m.fields with
    | nil => rfl
    | cons a t => rw [Message.is_empty, hf] at he; simp at he
  · exfalso
    by_cases hi : m.is_intact = true
    · rw [show o.parse_query_str m nm
          = (some ⟨m.name, .VerbatimRequest⟩, m, nm) from by
            simp [HttpOption.parse_query_str, he, hi]] at h
      simp at h
    · rw [show o.parse_query_str m nm
          = (some ⟨(nm.get_or_create_message m.name m.fields).1, .ExtractFields⟩,
             { m with fields := [] },
             (nm.get_or_create_message m.name m.fields).2) from by
            simp [HttpOption.parse_query_str, he, hi, Message.remove_all_fields]] at h
      simp at h

/-- C1: partition completeness: for a method whose binding resolves, the
original input field set splits exactly — as a multiset of names, with no
duplication and no omission for a duplicate-free input — into the path-bound
fields, the fields the body phase consumed, and the fields remaining to the
query phase (the whole remaining set when the query or a wildcard body is
resolved VerbatimRequest); a body spec exists exactly when body details do,
an absent body spec consumes nothing, and a single-field body consumes
exactly the named field. -/
theorem c1_partition_completeness (o : HttpOption) (msg : Message) (em : ExistingMessages)
    (nm : NewMessages) (det : MethodDetails) (nm' : NewMessages)
    (hnd : (msg.fields.map MsgField.name).Nodup)
    (h : o.parse msg em nm = .ok (det, nm')) :
    ∃ bodyFields queryFields : List MsgField,
      ((det.path_fields ++ bodyFields ++ queryFields).map MsgField.name).Perm
        (msg.fields.map MsgField.name)
      ∧ ((det.path_fields ++ bodyFields ++ queryFields).map MsgField.name).Nodup
      ∧ det.body.isSome = o.body.isSome
      ∧ (o.body = none → bodyFields = [])
      ∧ (∀ b, o.body = some b → b ≠ "*" → bodyFields.map MsgField.name = [b])
      ∧ (det.query_str = none → queryFields = []) := by
  obtain ⟨pf, m1, bodyOpt, m2, nm1, hpp, hbody, hdet, -⟩ :=
    parse_ok_decomp o msg em nm det nm' h
  obtain ⟨hperm1, -, -, -, -⟩ := parsePatternGo_ok _ msg pf m1 hpp
  obtain ⟨bf, hperm2, hbnone, hbsingle, hbsome⟩ :=
    parse_body_ok_consumed o m1 em nm bodyOpt m2 nm1 hbody
  have hall : msg.fields.Perm (pf ++ bf ++ m2.fields) := by
    have step : msg.fields.Perm (pf ++ (bf ++ m2.fields)) :=
      hperm1.trans (List.Perm.append_left pf hperm2)
    rw [List.append_assoc]
    exact step
  have hpfeq : det.path_fields = pf := by rw [hdet]
  have hnames : ((det.path_fields ++ bf ++ m2.fields).map MsgField.name).Perm
      (msg.fields.map MsgField.name) := by
    rw [hpfeq]
    exact (hall.map MsgField.name).symm
  refine ⟨bf, m2.fields, hnames, ?_, ?_, fun hno => (hbnone hno).1, hbsingle, ?_⟩
  · exact hnames.symm.nodup hnd
  · have : det.body = bodyOpt := by rw [hdet]
    rw [this]
    exact hbsome
  · intro hq
    have hq' : (o.parse_query_str m2 nm1).1 = none := by
      have : det.query_str = (o.parse_query_str m2 nm1).1 := by rw [hdet]
      rw [← this]
      exact hq
    exact parse_query_str_none o m2 nm1 hq'

/-- C1 witness: scenario A end-to-end (`{id, name}` under `GET /items/{id}`,
no body): the resolved details partition the two fields into path `[id]` and
query `[name]`. -/
theorem c1_witness :
    (wMsg.fields.map MsgField.name).Nodup ∧
    ∃ bodyFields queryFields : List MsgField,
      (((HttpOption.parse wOptA wMsg [] []).toOption.map
          (fun t => t.1.path_fields)).getD [] ++ bodyFields ++ queryFields).map
            MsgField.name
        |>.Perm (wMsg.fields.map MsgField.name) := by
  refine ⟨by decide, ?_⟩
  obtain ⟨bodyFields, queryFields, hperm, -, -, -, -, -⟩ :=
    c1_partition_completeness wOptA wMsg [] []
      { method := "GET", path := "/items/{id}", path_fields := [wId],
        query_str := some ⟨"GetItemRequest2", .ExtractFields⟩, body := none }
      [("GetItemRequest",
        [⟨"GetItemRequest2", "", [wName], 1⟩])]
      (by decide) (by decide)
  exact ⟨bodyFields, queryFields, by simpa using hperm⟩

/-- C6 witness: a concrete trace (two additions, one successful removal)
satisfies the count invariant and is no longer intact. -/
theorem c6_witness :
    (applyCount (Message.new "M" "") 0 [Op.add wId, Op.add wName, Op.rem "id"]).1.field_count
      = (applyCount (Message.new "M" "") 0 [Op.add wId, Op.add wName, Op.rem "id"]).1.fields.length
        + (applyCount (Message.new "M" "") 0 [Op.add wId, Op.add wName, Op.rem "id"]).2
    ∧ ((applyCount (Message.new "M" "") 0 [Op.add wId, Op.add wName, Op.rem "id"]).1.is_intact = true
        ↔ (applyCount (Message.new "M" "") 0 [Op.add wId, Op.add wName, Op.rem "id"]).2 = 0) :=
  ⟨(c6_intactness_invariant "M" "" [Op.add wId, Op.add wName, Op.rem "id"] wId).1,
   (c6_intactness_invariant "M" "" [Op.add wId, Op.add wName, Op.rem "id"] wId).2.1⟩
